import Mathlib

/-!
Verification of the piano-play-along core against its specification.

This file shallowly embeds the three core subsystems of the repository —
the repeat/volta sequencer (`src/repeat-handler.ts`), the autonomous
playback timing scheduler (`src/playback-engine.ts`) and the interactive
practice progress engine (`src/practice-engine.ts`) — as executable Lean
definitions, and proves or refutes the specification's claims about them.

Numbers that are floating point in the source (durations, tempos,
timestamps) are modelled as rationals; JavaScript `Set` objects are
modelled as `Finset ℕ`; `Map` objects used only for membership are
modelled as lists of keys.
-/

/-- `Hand` of a note, as in `shared/types.ts` (`'left' | 'right'`). -/
inductive Hand where
  | left
  | right
deriving DecidableEq, Repr

/-- Practice mode, as in `shared/types.ts` (`'left' | 'right' | 'both'`). -/
inductive PracticeMode where
  | left
  | right
  | both
deriving DecidableEq, Repr

/-- A note, from `shared/types.ts` `Note`. -/
structure Note where
  pitch : Nat
  hand : Hand
  duration : ℚ
  measureIndex : Nat
  timestamp : ℚ
  velocity : ℚ
  isTied : Bool
  isRest : Bool
deriving DecidableEq, Repr

/-- A note group, from `shared/types.ts` `NoteGroup`.  `tempo` and
`absoluteTime` are optional fields in the source. -/
structure NoteGroup where
  notes : List Note
  timestamp : ℚ
  measureIndex : Nat
  tempo : Option ℚ
  absoluteTime : Option ℚ
deriving DecidableEq, Repr

/-- One step of the expanded playback sequence, from `repeat-handler.ts`
`PlaybackStep`. -/
structure PlaybackStep where
  noteGroupIndex : Nat
  measureIndex : Nat
  repetitionIteration : Nat
deriving DecidableEq, Repr

/-- A volta ending, from `repeat-handler.ts` `VoltaEnding`. -/
structure VoltaEnding where
  startMeasure : Nat
  endMeasure : Nat
  iterations : List Nat
deriving DecidableEq, Repr

/-- A repeat section, from `repeat-handler.ts` `RepeatSection`. -/
structure RepeatSection where
  startMeasure : Nat
  endMeasure : Nat
  repeatCount : Nat
  endings : List VoltaEnding
deriving DecidableEq, Repr

/-- The per-measure repeat-metadata query surface that
`parseRepetitionInstructions` reads off an OSMD source measure:
`beginsWithLineRepetition()`, `endsWithLineRepetition()`,
`beginsRepetitionEnding()` and `FirstRepetitionInstructions`
(each instruction carrying its `endingIndices`). -/
structure SourceMeasure where
  beginsWithLineRepetition : Bool
  endsWithLineRepetition : Bool
  beginsRepetitionEnding : Bool
  firstRepetitionInstructions : List (List Nat)
deriving DecidableEq, Repr

/-- The inner `k` loop of `parseRepetitionInstructions` (lines 94–106):
find where a volta ending that starts at measure `j` ends — the first
subsequent measure with a backward repeat, or the measure before the next
ending start; if neither is found the ending ends at `j` itself.
`rest` is the suffix of the source measures from index `k`. -/
def findEndingEnd (j : Nat) : List SourceMeasure → Nat → Nat
  | [], _ => j
  | m :: rest, k =>
    if m.endsWithLineRepetition then k
    else if m.beginsRepetitionEnding then k - 1
    else findEndingEnd j rest (k + 1)

/-- The inner `j` loop of `parseRepetitionInstructions` (lines 84–135):
scan forward from a repeat start, collecting volta endings, until a
measure with a backward repeat is found (returned as `some endMeasure`),
or the end of the piece (`none`).  The list argument is the suffix of
the source measures from index `j`. -/
def scanForSectionEnd : List SourceMeasure → Nat → List VoltaEnding →
    List VoltaEnding × Option Nat
  | [], _, endings => (endings, none)
  | m :: rest, j, endings =>
    let endings :=
      if m.beginsRepetitionEnding then
        match m.firstRepetitionInstructions with
        | [] => endings
        | inst :: _ =>
          endings ++ [⟨j, findEndingEnd j rest (j + 1), inst⟩]
      else endings
    if m.endsWithLineRepetition then
      let endings :=
        if m.beginsRepetitionEnding then
          match m.firstRepetitionInstructions with
          | [] => endings
          | inst :: _ => endings ++ [⟨j, j, inst⟩]
        else endings
      (endings, some j)
    else scanForSectionEnd rest (j + 1) endings

/-- The outer `i` loop of `parseRepetitionInstructions` (lines 75–161).
The list argument is the suffix of the source measures from index `i`;
`msLength` is the length of the whole measure list. -/
def parseRepetitionInstructionsAux (msLength : Nat) :
    List SourceMeasure → Nat → List RepeatSection → List RepeatSection
  | [], _, sections => sections
  | m :: rest, i, sections =>
    if m.beginsWithLineRepetition then
      let scanned := scanForSectionEnd rest (i + 1) []
      let endMeasure := scanned.2.getD (msLength - 1)
      parseRepetitionInstructionsAux msLength rest (i + 1)
        (sections ++ [⟨i, endMeasure, 2, scanned.1⟩])
    else if m.endsWithLineRepetition then
      match sections.getLast? with
      | none =>
        parseRepetitionInstructionsAux msLength rest (i + 1)
          (sections ++ [⟨0, i, 2, []⟩])
      | some lastSection =>
        if lastSection.endMeasure < i then
          parseRepetitionInstructionsAux msLength rest (i + 1)
            (sections ++ [⟨lastSection.endMeasure + 1, i, 2, []⟩])
        else parseRepetitionInstructionsAux msLength rest (i + 1) sections
    else parseRepetitionInstructionsAux msLength rest (i + 1) sections

/-- `parseRepetitionInstructions` from `repeat-handler.ts` (lines 72–164). -/
def parseRepetitionInstructions (ms : List SourceMeasure) : List RepeatSection :=
  parseRepetitionInstructionsAux ms.length ms 0 []

/-- The note-group indices belonging to a measure, in ascending order —
the value `buildMeasureMap` associates to `measureIndex`
(`repeat-handler.ts` lines 291–303). -/
def noteGroupIndicesForMeasure (ngs : List NoteGroup) (measureIndex : Nat) :
    List Nat :=
  (List.range ngs.length).filter
    (fun i => (ngs.get? i).any (fun g => g.measureIndex == measureIndex))

/-- `addMeasureToSequence` (`repeat-handler.ts` lines 453–466), as the
list of steps appended for one measure emission. -/
def addMeasureToSequence (ngs : List NoteGroup) (measureIndex : Nat)
    (iteration : Nat) : List PlaybackStep :=
  (noteGroupIndicesForMeasure ngs measureIndex).map
    (fun ngIndex => ⟨ngIndex, measureIndex, iteration⟩)

/-- The measures `m` with `lo ≤ m ≤ hi` visited by a TS
`for (let m = lo; m <= hi; m++)` loop whose upper bound may be `-1`. -/
def measureRange (lo : Nat) (hi : Int) : List Nat :=
  if hi < (lo : Int) then [] else List.range' lo (hi.toNat - lo + 1)

/-- The ending selected for an iteration:
`repeatSection.endings.find(e => e.iterations.includes(iteration))`
(`repeat-handler.ts` lines 196–198) — JavaScript `find` returns the
first match. -/
def chooseEnding (endings : List VoltaEnding) (iteration : Nat) :
    Option VoltaEnding :=
  endings.find? (fun e => e.iterations.contains iteration)

/-- Common-region upper bound for a section (`repeat-handler.ts` lines
181–185): just before the first ending start, or the section end when
there are no endings. -/
def commonEndMeasure (sec : RepeatSection) : Int :=
  if sec.endings.isEmpty then (sec.endMeasure : Int)
  else ((sec.endings.map (·.startMeasure)).min?.getD 0 : Int) - 1

/-- The steps emitted for one iteration (1-indexed) of a repeat section
(`repeat-handler.ts` lines 188–213), parameterised by the
ending-selection function. -/
def emitIterationWith (choose : List VoltaEnding → Nat → Option VoltaEnding)
    (ngs : List NoteGroup) (sec : RepeatSection) (iteration : Nat) :
    List PlaybackStep :=
  let common := (measureRange sec.startMeasure (commonEndMeasure sec)).foldl
    (fun acc m => acc ++ addMeasureToSequence ngs m (iteration - 1)) []
  if sec.endings.isEmpty then
    common ++ (measureRange (sec.endMeasure + 1) (sec.endMeasure : Int)).foldl
      (fun acc m => acc ++ addMeasureToSequence ngs m (iteration - 1)) []
  else
    match choose sec.endings iteration with
    | some ending =>
      common ++ (measureRange ending.startMeasure (ending.endMeasure : Int)).foldl
        (fun acc m => acc ++ addMeasureToSequence ngs m (iteration - 1)) []
    | none => common

/-- All steps emitted for a repeat section, iterations
`1..repeatCount`. -/
def emitSectionWith (choose : List VoltaEnding → Nat → Option VoltaEnding)
    (ngs : List NoteGroup) (sec : RepeatSection) : List PlaybackStep :=
  (List.range sec.repeatCount).foldl
    (fun acc k => acc ++ emitIterationWith choose ngs sec (k + 1)) []

/-- The measure the outer scan resumes at after a section
(`repeat-handler.ts` lines 216–221). -/
def measureAfterSection (sec : RepeatSection) : Nat :=
  if sec.endings.isEmpty then sec.endMeasure + 1
  else ((sec.endings.map (·.endMeasure)).max?.getD 0) + 1

/-- Is a measure inside an already-detected section or one of its
endings (`repeat-handler.ts` lines 224–232)? -/
def insideRepeat (repeatInfo : List RepeatSection) (c : Nat) : Bool :=
  repeatInfo.any (fun r =>
    (r.startMeasure ≤ c && c ≤ r.endMeasure) ||
    r.endings.any (fun e => e.startMeasure ≤ c && c ≤ e.endMeasure))

/-- The `while (currentMeasure <= maxMeasure)` loop of
`buildSequenceFromRepeatInfo` (`repeat-handler.ts` lines 175–241).
`fuel` bounds the number of loop iterations; any terminating run of the
source loop strictly increases `currentMeasure` on every iteration, so
`maxMeasure + 2` iterations reproduce every terminating run. -/
def buildLoopWith (choose : List VoltaEnding → Nat → Option VoltaEnding)
    (repeatInfo : List RepeatSection) (ngs : List NoteGroup) (maxMeasure : Nat)
    (currentMeasure : Nat) (fuel : Nat) (acc : List PlaybackStep) :
    List PlaybackStep :=
  match fuel with
  | 0 => acc
  | fuel + 1 =>
    if currentMeasure ≤ maxMeasure then
      match repeatInfo.find? (fun r => r.startMeasure == currentMeasure) with
      | some sec =>
        buildLoopWith choose repeatInfo ngs maxMeasure (measureAfterSection sec)
          fuel (acc ++ emitSectionWith choose ngs sec)
      | none =>
        let acc :=
          if insideRepeat repeatInfo currentMeasure then acc
          else acc ++ addMeasureToSequence ngs currentMeasure 0
        buildLoopWith choose repeatInfo ngs maxMeasure (currentMeasure + 1)
          fuel acc
    else acc

/-- `buildSequenceFromRepeatInfo` (`repeat-handler.ts` lines 169–242),
parameterised by the ending-selection function.  When the note-group
array is empty, `Math.max(...)` is `-Infinity` and the loop body never
runs. -/
def buildSequenceFromRepeatInfoWith
    (choose : List VoltaEnding → Nat → Option VoltaEnding)
    (repeatInfo : List RepeatSection) (ngs : List NoteGroup) :
    List PlaybackStep :=
  match (ngs.map (·.measureIndex)).max? with
  | none => []
  | some maxMeasure =>
    buildLoopWith choose repeatInfo ngs maxMeasure 0 (maxMeasure + 2) []

/-- `buildSequenceFromRepeatInfo` as the source has it: the first
matching ending is selected. -/
def buildSequenceFromRepeatInfo (repeatInfo : List RepeatSection)
    (ngs : List NoteGroup) : List PlaybackStep :=
  buildSequenceFromRepeatInfoWith chooseEnding repeatInfo ngs

/-- Variant following the specification's words for ambiguous volta
assignments ("last-matching-ending wins"): the last ending whose
iteration set contains the current iteration is selected.  Used only to
compare the code's behaviour with the specification's. -/
def chooseEndingLastWins (endings : List VoltaEnding) (iteration : Nat) :
    Option VoltaEnding :=
  (endings.filter (fun e => e.iterations.contains iteration)).getLast?

/-- The expansion as the specification describes it for overlapping
iteration sets: identical to `buildSequenceFromRepeatInfo` except that
the last matching ending wins. -/
def buildSequenceLastWins (repeatInfo : List RepeatSection)
    (ngs : List NoteGroup) : List PlaybackStep :=
  buildSequenceFromRepeatInfoWith chooseEndingLastWins repeatInfo ngs

/-- `buildLinearSequence` (`repeat-handler.ts` lines 247–255). -/
def buildLinearSequence (ngs : List NoteGroup) : List PlaybackStep :=
  (List.range ngs.length).map
    (fun i => ⟨i, ((ngs.get? i).map (·.measureIndex)).getD 0, 0⟩)

/-- `buildPlaybackSequence` (`repeat-handler.ts` lines 38–67): parse the
repeat metadata; with no repeat sections fall back to the linear
sequence, otherwise expand. -/
def buildPlaybackSequence (ms : List SourceMeasure) (ngs : List NoteGroup) :
    List PlaybackStep :=
  let repeatInfo := parseRepetitionInstructions ms
  if repeatInfo.isEmpty then buildLinearSequence ngs
  else buildSequenceFromRepeatInfo repeatInfo ngs

/-- The 1-indexed measure order of a playback sequence with consecutive
duplicates collapsed — the debug summary computed at
`repeat-handler.ts` lines 58–65. -/
def measureOrder (seq : List PlaybackStep) : List Nat :=
  (seq.foldl
    (fun (acc : List Nat × Int) step =>
      if (step.measureIndex : Int) ≠ acc.2 then
        (acc.1 ++ [step.measureIndex + 1], (step.measureIndex : Int))
      else acc)
    ([], -1)).1

/-- A source measure with no repeat metadata. -/
def plainMeasure : SourceMeasure := ⟨false, false, false, []⟩

/-- The worked example's repeat metadata: 12 measures (0-indexed);
measure 2 begins a forward repeat; measure 9 carries the backward repeat
and begins the volta-1 bracket; measure 10 begins the volta-2 bracket. -/
def exSourceMeasures : List SourceMeasure :=
  [plainMeasure, plainMeasure,
   ⟨true, false, false, []⟩,
   plainMeasure, plainMeasure, plainMeasure, plainMeasure, plainMeasure,
   plainMeasure,
   ⟨false, true, true, [[1]]⟩,
   ⟨false, false, true, [[2]]⟩,
   plainMeasure]

/-- The worked example's linear note groups: one (empty) note group per
measure, measures 0..11. -/
def exNoteGroups : List NoteGroup :=
  (List.range 12).map (fun i => ⟨[], 0, i, none, none⟩)


/-- A note augmented with the scheduling-only fields the playback engine
attaches at runtime (`(note as any).totalDuration`,
`(note as any).isTieContinuation`). -/
structure AnnNote where
  note : Note
  totalDuration : Option ℚ
  isTieContinuation : Bool
deriving DecidableEq, Repr

/-- A note group whose notes carry the scheduling annotations. -/
structure AnnNoteGroup where
  notes : List AnnNote
  timestamp : ℚ
  measureIndex : Nat
  tempo : Option ℚ
  absoluteTime : Option ℚ
deriving DecidableEq, Repr

/-- The inner `j` scan of `calculateTiedNoteDurations`
(`playback-engine.ts` lines 77–89): accumulate the durations of tied
continuations of `pitch` in subsequent groups, skipping groups where the
pitch is absent, stopping at the first group where the pitch reappears
untied.  The list argument is the suffix of the note groups after the
tie origin. -/
def accumulateTiedDuration (pitch : Nat) : List NoteGroup → ℚ → ℚ
  | [], acc => acc
  | g :: rest, acc =>
    match g.notes.find? (fun n => n.pitch == pitch) with
    | some tiedNote =>
      if tiedNote.isTied then
        accumulateTiedDuration pitch rest (acc + tiedNote.duration)
      else acc
    | none => accumulateTiedDuration pitch rest acc

/-- Per-note body of `calculateTiedNoteDurations` (`playback-engine.ts`
lines 64–97): walk the notes of one group, threading the set of pitches
with an active tie (`activeTies`, used only for membership in the
source).  `restGroups` is the suffix of note groups after this group. -/
def annotateNotes (restGroups : List NoteGroup) :
    List Note → List Nat → List AnnNote × List Nat
  | [], ties => ([], ties)
  | n :: notes, ties =>
    if n.isTied then
      if ties.contains n.pitch then
        let (anns, ties') := annotateNotes restGroups notes ties
        (⟨n, none, true⟩ :: anns, ties')
      else
        let td := accumulateTiedDuration n.pitch restGroups n.duration
        let (anns, ties') := annotateNotes restGroups notes (n.pitch :: ties)
        (⟨n, some td, false⟩ :: anns, ties')
    else
      let (anns, ties') := annotateNotes restGroups notes (ties.erase n.pitch)
      (⟨n, none, false⟩ :: anns, ties')

/-- Outer loop of `calculateTiedNoteDurations` over the note groups. -/
def calculateTiedAux : List NoteGroup → List Nat → List AnnNoteGroup
  | [], _ => []
  | g :: rest, ties =>
    let (anns, ties') := annotateNotes rest g.notes ties
    ⟨anns, g.timestamp, g.measureIndex, g.tempo, g.absoluteTime⟩ ::
      calculateTiedAux rest ties'

/-- `calculateTiedNoteDurations` (`playback-engine.ts` lines 57–99):
mark tie continuations and record accumulated total durations on tie
origins, returning the annotated note groups. -/
def calculateTiedNoteDurations (ngs : List NoteGroup) : List AnnNoteGroup :=
  calculateTiedAux ngs []

/-- The effective tempo `group.tempo || defaultTempo`
(`playback-engine.ts` line 128); JavaScript `||` treats `0` and an
absent field alike. -/
def effTempo (tempo : Option ℚ) (defaultTempo : ℚ) : ℚ :=
  match tempo with
  | some t => if t = 0 then defaultTempo else t
  | none => defaultTempo

/-- The duration used for scheduling a note:
`(note as any).totalDuration || note.duration`
(`playback-engine.ts` lines 160 and 208). -/
def schedDuration (n : AnnNote) : ℚ :=
  match n.totalDuration with
  | some d => if d = 0 then n.note.duration else d
  | none => n.note.duration

/-- The longest scheduling duration in a group (`playback-engine.ts`
lines 158–162). -/
def longestDuration (g : AnnNoteGroup) : ℚ :=
  g.notes.foldl (fun acc n => max acc (schedDuration n)) 0

/-- Delay used when the transition is a jump (`playback-engine.ts`
lines 155–164): longest duration of the departing group, at the
departing group's effective tempo, scaled by the tempo multiplier.
Mentions no attribute of the destination group. -/
def jumpDelay (cur : AnnNoteGroup) (defaultTempo tempoMultiplier : ℚ) : ℚ :=
  longestDuration cur * (60000 / effTempo cur.tempo defaultTempo) * 4 /
    tempoMultiplier

/-- The delay-to-next computation of `playNextGroup`
(`playback-engine.ts` lines 139–188), for the case where the next
playback position resolves to the valid note group `next`.
`activeNotes` models `this.activeNotes` (never populated in the current
source, but kept for fidelity of the fallback branch). -/
def computeDelay (cur next : AnnNoteGroup) (noteGroupIndex nextNoteGroupIndex : Nat)
    (defaultTempo tempoMultiplier : ℚ) (activeNotes : List Nat) : ℚ :=
  let tempo := effTempo cur.tempo defaultTempo
  match cur.absoluteTime, next.absoluteTime with
  | some ct, some nt =>
    if nextNoteGroupIndex ≠ noteGroupIndex + 1 then
      longestDuration cur * (60000 / tempo) * 4 / tempoMultiplier
    else
      (nt - ct) * (60000 / tempo) * 4 / tempoMultiplier
  | _, _ =>
    let candidates := (cur.notes.filter
      (fun n => !n.note.isTied || !(activeNotes.contains n.note.pitch))).map
        (fun n => n.note.duration)
    let shortest := candidates.min?.getD (1 / 100)
    shortest * (60000 / tempo) * 4 / tempoMultiplier

/-- The sounding duration, in milliseconds, that
`playNoteGroupWithTies` (`playback-engine.ts` lines 198–212) gives a
non-continuation note at a given tempo (the source divides once more by
1000 to obtain seconds). -/
def soundingDurationMs (n : AnnNote) (tempo tempoMultiplier : ℚ) : ℚ :=
  schedDuration n * (60000 / tempo) * 4 / tempoMultiplier

/-- The C3 score: one pitch (60) tied across three consecutive note
groups with durations 1/4, 1/4 and 1/2; every note of the tie chain
carries the parser's tie flag (`isTied = !!note.NoteTie`,
`score-renderer.ts` line 679). -/
def exTieNoteGroups : List NoteGroup :=
  [⟨[⟨60, Hand.right, 1/4, 0, 0, 1, true, false⟩], 0, 0, none, none⟩,
   ⟨[⟨60, Hand.right, 1/4, 1, 0, 1, true, false⟩], 0, 1, none, none⟩,
   ⟨[⟨60, Hand.right, 1/2, 2, 0, 1, true, false⟩], 0, 2, none, none⟩]

/-- `getNoteGroupIndexForPosition` (`repeat-handler.ts` lines 485–490):
`-1` for an out-of-range position, otherwise the note-group index stored
at that step. -/
def getNoteGroupIndexForPosition (seq : List PlaybackStep) (position : Int) :
    Int :=
  if position < 0 ∨ (seq.length : Int) ≤ position then -1
  else
    match seq.get? position.toNat with
    | some step => (step.noteGroupIndex : Int)
    | none => -1

/-- JavaScript `Array.prototype.findIndex`: the index of the first
element satisfying the predicate. -/
def findFirstIndex (p : PlaybackStep → Bool) : List PlaybackStep → Option Nat
  | [] => none
  | step :: rest => if p step then some 0 else (findFirstIndex p rest).map (· + 1)

/-- `getPositionForNoteGroupIndex` (`repeat-handler.ts` lines 496–498):
the first playback position referencing the note-group index, `-1` when
absent. -/
def getPositionForNoteGroupIndex (seq : List PlaybackStep)
    (noteGroupIndex : Int) : Int :=
  match findFirstIndex (fun step => (step.noteGroupIndex : Int) == noteGroupIndex) seq with
  | some k => (k : Int)
  | none => -1

/-- `PracticeState` from `shared/types.ts`. -/
structure PracticeState where
  isPlaying : Bool
  currentNoteGroupIndex : Nat
  pressedNotes : Finset ℕ
  correctNotesPressed : Finset ℕ
  score : List NoteGroup
deriving DecidableEq

/-- A callback emission observable from the practice engine: the
progress callback or the auto-play callback with its pitches. -/
inductive CbEvent where
  | progress
  | autoPlay (pitches : List Nat)
deriving DecidableEq, Repr

/-- `getExpectedNotes` (`practice-engine.ts` lines 206–215): the pitches
of the current group's notes on the practiced hand(s). -/
def getExpectedNotes (mode : PracticeMode) (g : NoteGroup) : List Nat :=
  (g.notes.filter (fun n =>
    match mode with
    | .both => true
    | .left => n.hand == Hand.left
    | .right => n.hand == Hand.right)).map (·.pitch)

/-- `autoPlayOtherHand` (`practice-engine.ts` lines 150–165), as the
callback emissions it produces: nothing in `both` mode, otherwise the
other hand's notes when there are any. -/
def autoPlayOtherHand (mode : PracticeMode) (g : NoteGroup) : List CbEvent :=
  match mode with
  | .both => []
  | _ =>
    let otherHandNotes := g.notes.filter (fun n =>
      match mode with
      | .left => n.hand == Hand.right
      | .right => n.hand == Hand.left
      | .both => false)
    if otherHandNotes.isEmpty then []
    else [.autoPlay (otherHandNotes.map (·.pitch))]

/-- The synchronous part of `checkProgress` (`practice-engine.ts` lines
95–148): past the end do nothing; an empty expected set auto-advances
one group; a fully held expected set marks the notes correct, advances,
clears the correct set and pauses on completion; otherwise nothing.
(The `scheduleNextAutoPlay` timer continuation is asynchronous and not
part of this synchronous step.  The source also inserts the expected
notes into `correctNotesPressed` at line 122 and clears that set at line
129 after advancing; the net effect — the cleared set — is what is
recorded here.)  Returns the new state and the callback emissions. -/
def checkProgress (mode : PracticeMode) (s : PracticeState) :
    PracticeState × List CbEvent :=
  if h : s.currentNoteGroupIndex < s.score.length then
    if (getExpectedNotes mode (s.score.get ⟨s.currentNoteGroupIndex, h⟩)).isEmpty then
      ({ s with currentNoteGroupIndex := s.currentNoteGroupIndex + 1 },
       autoPlayOtherHand mode (s.score.get ⟨s.currentNoteGroupIndex, h⟩) ++ [.progress])
    else if (getExpectedNotes mode (s.score.get ⟨s.currentNoteGroupIndex, h⟩)).all
        (fun p => p ∈ s.pressedNotes) then
      if s.score.length ≤ s.currentNoteGroupIndex + 1 then
        ({ s with currentNoteGroupIndex := s.currentNoteGroupIndex + 1,
                  correctNotesPressed := ∅, isPlaying := false },
         autoPlayOtherHand mode (s.score.get ⟨s.currentNoteGroupIndex, h⟩) ++ [.progress])
      else
        ({ s with currentNoteGroupIndex := s.currentNoteGroupIndex + 1,
                  correctNotesPressed := ∅ },
         autoPlayOtherHand mode (s.score.get ⟨s.currentNoteGroupIndex, h⟩) ++ [.progress])
    else (s, [])
  else (s, [])

/-- `handleNoteOn` (`practice-engine.ts` lines 81–87): ignored unless
playing; otherwise the pitch is added to the pressed set, progress is
checked, and the progress callback fires. -/
def handleNoteOn (mode : PracticeMode) (s : PracticeState) (midiNote : Nat) :
    PracticeState × List CbEvent :=
  if s.isPlaying then
    ((checkProgress mode { s with pressedNotes := insert midiNote s.pressedNotes }).1,
     (checkProgress mode { s with pressedNotes := insert midiNote s.pressedNotes }).2
       ++ [.progress])
  else (s, [])

/-- `handleNoteOff` (`practice-engine.ts` lines 89–93): remove the pitch
from the pressed and correct sets and fire the progress callback,
regardless of the playing flag. -/
def handleNoteOff (s : PracticeState) (midiNote : Nat) :
    PracticeState × List CbEvent :=
  ({ s with pressedNotes := s.pressedNotes.erase midiNote,
            correctNotesPressed := s.correctNotesPressed.erase midiNote },
   [.progress])

/-- The `while` loop of `skipEmptyGroups` (`practice-engine.ts` lines
68–79): advance the cursor past groups whose expected-note set is empty.
The list argument is the suffix of the score from index `i`. -/
def skipEmptyGroupsAux (mode : PracticeMode) : List NoteGroup → Nat → Nat
  | [], i => i
  | g :: rest, i =>
    if (getExpectedNotes mode g).isEmpty then skipEmptyGroupsAux mode rest (i + 1)
    else i

/-- `skipEmptyGroups` applied to a practice state. -/
def skipEmptyGroups (mode : PracticeMode) (s : PracticeState) : PracticeState :=
  let newIndex := skipEmptyGroupsAux mode (s.score.drop s.currentNoteGroupIndex) s.currentNoteGroupIndex
  { s with currentNoteGroupIndex := newIndex }

/-- `jumpToNoteGroup` (`practice-engine.ts` lines 57–66): in range, move
the cursor, clear both note sets, skip empty groups and fire progress;
out of range, do nothing. -/
def jumpToNoteGroup (mode : PracticeMode) (s : PracticeState) (index : Int) :
    PracticeState × List CbEvent :=
  if 0 ≤ index ∧ index < (s.score.length : Int) then
    let s1 := { s with currentNoteGroupIndex := index.toNat,
                       pressedNotes := ∅, correctNotesPressed := ∅ }
    (skipEmptyGroups mode s1, [.progress])
  else (s, [])

/-- A live note event fed to the practice engine. -/
inductive PracticeEvent where
  | noteOn (pitch : Nat)
  | noteOff (pitch : Nat)
deriving DecidableEq, Repr

/-- The state reached after one practice event. -/
def applyEvent (mode : PracticeMode) (s : PracticeState) :
    PracticeEvent → PracticeState
  | .noteOn p => (handleNoteOn mode s p).1
  | .noteOff p => (handleNoteOff s p).1

/-- All states visited while feeding a sequence of note events to the
practice engine, starting state included. -/
def traceStates (mode : PracticeMode) (s : PracticeState) :
    List PracticeEvent → List PracticeState
  | [] => [s]
  | e :: es => s :: traceStates mode (applyEvent mode s e) es

/-- The practice-mode-filtered expected-note set of the group under the
cursor (empty past the end of the score). -/
def expectedAt (mode : PracticeMode) (s : PracticeState) : List Nat :=
  match s.score.get? s.currentNoteGroupIndex with
  | some g => getExpectedNotes mode g
  | none => []

/-- Admissible cursor movement in one practice-engine step: either the
cursor is unchanged, or it advances by exactly one and every expected
pitch of the group it left is held in the resulting pressed set. -/
def cursorStepOk (mode : PracticeMode) (t u : PracticeState) : Prop :=
  u.currentNoteGroupIndex = t.currentNoteGroupIndex ∨
  (u.currentNoteGroupIndex = t.currentNoteGroupIndex + 1 ∧
   ∀ p ∈ expectedAt mode t, p ∈ u.pressedNotes)

/-- C2/C7 example: a departing note group with one half-note, tempo 120,
absolute time 0. -/
def exDelayCur : AnnNoteGroup :=
  ⟨[⟨⟨60, Hand.right, 1/2, 0, 0, 1, false, false⟩, none, false⟩],
   0, 0, some 120, some 0⟩

/-- C2/C7 example: the destination note group, tempo 60, absolute time
1/4. -/
def exDelayNext : AnnNoteGroup := ⟨[], 0, 1, some 60, some (1/4)⟩

/-- C4 example: a repeat section over measures 0..2 whose two volta
endings overlap on iteration 2 — the first ending claims iterations
1 and 2, the second claims iteration 2. -/
def exOverlapSections : List RepeatSection :=
  [⟨0, 2, 2, [⟨1, 1, [1, 2]⟩, ⟨2, 2, [2]⟩]⟩]

/-- C4 example: one note group per measure, measures 0..2. -/
def exOverlapNoteGroups : List NoteGroup :=
  [⟨[], 0, 0, none, none⟩, ⟨[], 0, 1, none, none⟩, ⟨[], 0, 2, none, none⟩]

/-- C10 witness input: a plain two-measure repeat. -/
def exSimpleRepeatMeasures : List SourceMeasure :=
  [⟨true, false, false, []⟩, ⟨false, true, false, []⟩]

/-- C6 witness input: a sequence revisiting note group 3. -/
def exPositionSeq : List PlaybackStep :=
  [⟨3, 0, 0⟩, ⟨4, 0, 0⟩, ⟨3, 0, 1⟩]

/-- C8 witness input: a practice state mid-session. -/
def exPracticeState : PracticeState := ⟨true, 0, {60}, ∅, exTieNoteGroups⟩

/-- C9 witness input: a paused practice state holding pitch 60. -/
def exPausedState : PracticeState := ⟨false, 1, {60}, {60}, exTieNoteGroups⟩
/-- C1: the worked example's expanded playback order, measure numbers
1-indexed with consecutive duplicates collapsed, is exactly
`1,2,3,4,5,6,7,8,9,10,3,4,5,6,7,8,9,11,12`. -/
theorem worked_example_measure_order :
    measureOrder (buildPlaybackSequence exSourceMeasures exNoteGroups) =
      [1, 2, 3, 4, 5, 6, 7, 8, 9, 10, 3, 4, 5, 6, 7, 8, 9, 11, 12] := by
  decide

/-- C3: after the tie pre-computation on a pitch tied across durations
1/4, 1/4, 1/2, the origin note carries `totalDuration = 1` and the notes
in the other two groups are both marked `isTieContinuation`. -/
theorem tied_duration_accumulation :
    ((calculateTiedNoteDurations exTieNoteGroups).get? 0).map
        (fun g => g.notes.map (·.totalDuration)) = some [some 1] ∧
    ((calculateTiedNoteDurations exTieNoteGroups).get? 1).map
        (fun g => g.notes.map (·.isTieContinuation)) = some [true] ∧
    ((calculateTiedNoteDurations exTieNoteGroups).get? 2).map
        (fun g => g.notes.map (·.isTieContinuation)) = some [true] := by
  refine ⟨?_, by decide, by decide⟩
  simp [calculateTiedNoteDurations, calculateTiedAux, annotateNotes,
    accumulateTiedDuration, exTieNoteGroups]
  norm_num

/-- C4 counterexample: with two endings of the same section overlapping
on iteration 2, the code's expansion plays the *first* matching ending
(measure order `1,2,1,2`), not the last one as the claim states (which
would give `1,2,1,3`). -/
theorem overlapping_volta_not_last_wins :
    measureOrder (buildSequenceFromRepeatInfo exOverlapSections exOverlapNoteGroups) =
      [1, 2, 1, 2] ∧
    measureOrder (buildSequenceLastWins exOverlapSections exOverlapNoteGroups) =
      [1, 2, 1, 3] ∧
    measureOrder (buildSequenceFromRepeatInfo exOverlapSections exOverlapNoteGroups) ≠
      measureOrder (buildSequenceLastWins exOverlapSections exOverlapNoteGroups) := by
  decide

/-- C4 (amended): when several volta endings of a section list the
current iteration number, the expansion emits the *first* matching
ending in list order (and, being a total function, raises no
exception). -/
theorem chooseEnding_first_match (endings : List VoltaEnding) (iteration : Nat) :
    chooseEnding endings iteration =
      (endings.filter (fun e => e.iterations.contains iteration)).head? := by
  induction endings with
  | nil => rfl
  | cons e es ih =>
    by_cases h : iteration ∈ e.iterations
    · simp [chooseEnding, List.find?_cons, List.filter_cons, h]
    · simp [chooseEnding, List.find?_cons, List.filter_cons, h, ih]

/-- Invariant of the outer parsing loop: every section it appends has
`repeatCount = 2`. -/
theorem parseAux_repeatCount (msLength : Nat) (rest : List SourceMeasure) :
    ∀ (i : Nat) (sections : List RepeatSection),
      (∀ t ∈ sections, t.repeatCount = 2) →
      ∀ s ∈ parseRepetitionInstructionsAux msLength rest i sections,
        s.repeatCount = 2 := by
  induction rest with
  | nil =>
    intro i sections hsec s hs
    exact hsec s (by simpa [parseRepetitionInstructionsAux] using hs)
  | cons m rest ih =>
    intro i sections hsec s hs
    have happ : ∀ (sec : RepeatSection), sec.repeatCount = 2 →
        ∀ t ∈ sections ++ [sec], t.repeatCount = 2 := by
      intro sec hsecCount t ht
      rcases List.mem_append.1 ht with h | h
      · exact hsec t h
      · rw [List.mem_singleton] at h
        subst h
        exact hsecCount
    rw [parseRepetitionInstructionsAux] at hs
    split at hs
    · exact ih _ _ (happ _ rfl) s hs
    · split at hs
      · split at hs
        · exact ih _ _ (happ _ rfl) s hs
        · split at hs
          · exact ih _ _ (happ _ rfl) s hs
          · exact ih _ _ hsec s hs
      · exact ih _ _ hsec s hs

/-- C10: every repeat section produced by `parseRepetitionInstructions`
has `repeatCount` exactly 2, whatever the repeat metadata contains; the
expansion loop therefore plays every section's common region exactly
twice. -/
theorem repeatCount_always_two (ms : List SourceMeasure) (s : RepeatSection)
    (h : s ∈ parseRepetitionInstructions ms) : s.repeatCount = 2 :=
  parseAux_repeatCount ms.length ms 0 [] (by intro t ht; cases ht) s h

/-- Witness for C10 at a concrete two-measure repeat. -/
theorem repeatCount_always_two_witness :
    (⟨0, 1, 2, []⟩ : RepeatSection).repeatCount = 2 :=
  repeatCount_always_two exSimpleRepeatMeasures ⟨0, 1, 2, []⟩ (by decide)

/-- C2 counterexample: for sequentially adjacent groups whose tempos
differ (current 120, next 60), the code's delay is 500 ms, computed from
the *current* group's tempo; the next group's tempo would give 1000 ms.
The claim that delay-to-next uses the next group's tempo is false. -/
theorem adjacent_delay_not_next_tempo :
    computeDelay exDelayCur exDelayNext 0 1 120 1 [] = 500 ∧
    ((1 : ℚ) / 4 - 0) * (60000 / effTempo exDelayNext.tempo 120) * 4 / 1 = 1000 ∧
    computeDelay exDelayCur exDelayNext 0 1 120 1 [] ≠
      ((1 : ℚ) / 4 - 0) * (60000 / effTempo exDelayNext.tempo 120) * 4 / 1 := by
  norm_num [computeDelay, effTempo, exDelayCur, exDelayNext]

/-- C2 (amended): for sequentially adjacent steps with defined absolute
times, the delay to the next step is the absolute-time difference scaled
by the *current* group's effective tempo (the same tempo used for the
current group's sounding durations) and the tempo multiplier. -/
theorem adjacent_delay_uses_current_tempo (cur next : AnnNoteGroup) (i : Nat)
    (defaultTempo mult : ℚ) (activeNotes : List Nat) (ct nt : ℚ)
    (hc : cur.absoluteTime = some ct) (hn : next.absoluteTime = some nt) :
    computeDelay cur next i (i + 1) defaultTempo mult activeNotes =
      (nt - ct) * (60000 / effTempo cur.tempo defaultTempo) * 4 / mult := by
  simp [computeDelay, hc, hn]

/-- Witness for the amended C2 at the concrete tempo-change input. -/
theorem adjacent_delay_uses_current_tempo_witness :
    computeDelay exDelayCur exDelayNext 0 (0 + 1) 120 1 [] =
      ((1 : ℚ) / 4 - 0) * (60000 / effTempo exDelayCur.tempo 120) * 4 / 1 :=
  adjacent_delay_uses_current_tempo exDelayCur exDelayNext 0 120 1 [] 0 (1 / 4)
    rfl rfl

/-- The seed of the longest-duration fold is a lower bound of the
fold's value. -/
theorem foldl_max_init_le (l : List AnnNote) (a : ℚ) :
    a ≤ l.foldl (fun acc n => max acc (schedDuration n)) a := by
  induction l generalizing a with
  | nil => exact le_refl a
  | cons n l ih => exact le_trans (le_max_left a (schedDuration n)) (ih _)

/-- Every note's scheduling duration is bounded by the
longest-duration fold over any list containing it. -/
theorem schedDuration_le_foldl_max :
    ∀ (l : List AnnNote) (a : ℚ) (n : AnnNote), n ∈ l →
      schedDuration n ≤ l.foldl (fun acc m => max acc (schedDuration m)) a
  | [], _, n, hn => absurd hn (List.not_mem_nil n)
  | m :: l, a, n, hn => by
    rcases List.mem_cons.1 hn with h | h
    · subst h
      exact le_trans (le_max_right a _) (foldl_max_init_le l _)
    · exact schedDuration_le_foldl_max l _ n h

/-- C7: for a jump transition (non-adjacent note-group indices) with
both absolute times defined, the computed delay equals `jumpDelay` of
the departing group — a function of the departing group's notes and
tempo and the multiplier only, mentioning nothing of the destination —
and that delay is at least the sounding duration, in milliseconds, of
every note of the departing group. -/
theorem jump_delay_departing_only (cur next : AnnNoteGroup) (i j : Nat)
    (defaultTempo mult : ℚ) (activeNotes : List Nat) (ct nt : ℚ)
    (hc : cur.absoluteTime = some ct) (hn : next.absoluteTime = some nt)
    (hj : j ≠ i + 1) (htempo : 0 < effTempo cur.tempo defaultTempo)
    (hmult : 0 < mult) :
    computeDelay cur next i j defaultTempo mult activeNotes =
      jumpDelay cur defaultTempo mult ∧
    ∀ n ∈ cur.notes,
      soundingDurationMs n (effTempo cur.tempo defaultTempo) mult ≤
        computeDelay cur next i j defaultTempo mult activeNotes := by
  have heq : computeDelay cur next i j defaultTempo mult activeNotes =
      jumpDelay cur defaultTempo mult := by
    simp [computeDelay, jumpDelay, hc, hn, hj]
  refine ⟨heq, ?_⟩
  intro n hmem
  rw [heq]
  unfold jumpDelay soundingDurationMs
  have h1 : schedDuration n ≤ longestDuration cur :=
    schedDuration_le_foldl_max cur.notes 0 n hmem
  have h2 : (0 : ℚ) ≤ 60000 / effTempo cur.tempo defaultTempo := by positivity
  unfold longestDuration at h1 ⊢
  gcongr

/-- Witness for C7 at a concrete jump (positions 0 → 5). -/
theorem jump_delay_departing_only_witness :
    (computeDelay exDelayCur exDelayNext 0 5 120 1 [] =
       jumpDelay exDelayCur 120 1) ∧
    ∀ n ∈ exDelayCur.notes,
      soundingDurationMs n (effTempo exDelayCur.tempo 120) 1 ≤
        computeDelay exDelayCur exDelayNext 0 5 120 1 [] :=
  jump_delay_departing_only exDelayCur exDelayNext 0 5 120 1 [] 0 (1 / 4)
    rfl rfl (by decide) (by norm_num [effTempo, exDelayCur]) (by norm_num)

/-- C8: jumping to an out-of-range note-group index (negative or at
least the score length) leaves the practice state unchanged, raises no
exception and fires no callback. -/
theorem out_of_range_jump_noop (mode : PracticeMode) (s : PracticeState)
    (index : Int) (h : index < 0 ∨ (s.score.length : Int) ≤ index) :
    jumpToNoteGroup mode s index = (s, []) := by
  unfold jumpToNoteGroup
  rw [if_neg]
  rintro ⟨h1, h2⟩
  rcases h with h | h <;> omega

/-- Witness for C8 at a negative and an at-length index. -/
theorem out_of_range_jump_noop_witness :
    jumpToNoteGroup PracticeMode.both exPracticeState (-1) =
      (exPracticeState, []) ∧
    jumpToNoteGroup PracticeMode.both exPracticeState 3 =
      (exPracticeState, []) :=
  ⟨out_of_range_jump_noop PracticeMode.both exPracticeState (-1)
     (Or.inl (by decide)),
   out_of_range_jump_noop PracticeMode.both exPracticeState 3
     (Or.inr (by decide))⟩

/-- C9: while the playing flag is false, `handleNoteOn` leaves the
state unchanged and fires no callback, whereas `handleNoteOff` always
removes the pitch from both the pressed and correct sets and fires the
progress callback. -/
theorem noteOn_gated_noteOff_ungated (mode : PracticeMode)
    (s : PracticeState) (n : Nat) (h : s.isPlaying = false) :
    handleNoteOn mode s n = (s, []) ∧
    handleNoteOff s n =
      ({ s with pressedNotes := s.pressedNotes.erase n,
                correctNotesPressed := s.correctNotesPressed.erase n },
       [CbEvent.progress]) :=
  ⟨by simp [handleNoteOn, h], rfl⟩

/-- Witness for C9 at a paused state holding pitch 60. -/
theorem noteOn_gated_noteOff_ungated_witness :
    handleNoteOn PracticeMode.both exPausedState 60 = (exPausedState, []) ∧
    handleNoteOff exPausedState 60 =
      ({ exPausedState with
          pressedNotes := exPausedState.pressedNotes.erase 60,
          correctNotesPressed := exPausedState.correctNotesPressed.erase 60 },
       [CbEvent.progress]) :=
  noteOn_gated_noteOff_ungated PracticeMode.both exPausedState 60 rfl

/-- `checkProgress` never changes the pressed-note set. -/
theorem checkProgress_pressed (mode : PracticeMode) (s : PracticeState) :
    ((checkProgress mode s).1).pressedNotes = s.pressedNotes := by
  unfold checkProgress
  split
  · split
    · rfl
    · split
      · split
        · rfl
        · rfl
      · rfl
  · rfl

/-- `checkProgress` either leaves the cursor in place, or advances it by
exactly one while every expected pitch of the group it left is in the
pressed set. -/
theorem checkProgress_cursor (mode : PracticeMode) (s : PracticeState) :
    (checkProgress mode s).1.currentNoteGroupIndex = s.currentNoteGroupIndex ∨
    ((checkProgress mode s).1.currentNoteGroupIndex = s.currentNoteGroupIndex + 1 ∧
     ∀ p ∈ expectedAt mode s, p ∈ s.pressedNotes) := by
  unfold checkProgress
  split
  case isTrue h =>
    have hexp : expectedAt mode s =
        getExpectedNotes mode (s.score.get ⟨s.currentNoteGroupIndex, h⟩) := by
      unfold expectedAt
      rw [List.get?_eq_get h]
    split
    case isTrue hemp =>
      refine Or.inr ⟨rfl, ?_⟩
      intro p hp
      rw [hexp, List.isEmpty_iff.1 hemp] at hp
      cases hp
    case isFalse hemp =>
      split
      case isTrue hall =>
        have hheld : ∀ p ∈ expectedAt mode s, p ∈ s.pressedNotes := by
          intro p hp
          rw [hexp] at hp
          simpa using List.all_eq_true.1 hall p hp
        split
        · exact Or.inr ⟨rfl, hheld⟩
        · exact Or.inr ⟨rfl, hheld⟩
      case isFalse => exact Or.inl rfl
  case isFalse => exact Or.inl rfl

/-- One practice-engine event moves the cursor admissibly. -/
theorem applyEvent_cursorStepOk (mode : PracticeMode) (s : PracticeState)
    (e : PracticeEvent) : cursorStepOk mode s (applyEvent mode s e) := by
  cases e with
  | noteOff p => exact Or.inl rfl
  | noteOn p =>
    simp only [applyEvent, handleNoteOn]
    by_cases hp : s.isPlaying
    · rw [if_pos hp]
      rcases checkProgress_cursor mode
          { s with pressedNotes := insert p s.pressedNotes } with h | ⟨h1, h2⟩
      · exact Or.inl h
      · refine Or.inr ⟨h1, ?_⟩
        intro q hq
        rw [checkProgress_pressed mode
          { s with pressedNotes := insert p s.pressedNotes }]
        exact h2 q hq
    · rw [if_neg hp]
      exact Or.inl rfl

/-- The first state of a trace is the starting state. -/
theorem traceStates_head (mode : PracticeMode) (s : PracticeState)
    (es : List PracticeEvent) : (traceStates mode s es).head? = some s := by
  cases es <;> rfl

/-- C5: over any sequence of note-on/note-off events, consecutive states
of the practice engine satisfy `cursorStepOk`: the cursor never moves
past a note-group whose practice-mode-filtered expected-note set is
non-empty and not entirely held, and every advance is by one group with
all of its expected pitches pressed. -/
theorem cursor_never_skips_unheld (mode : PracticeMode) (s : PracticeState)
    (es : List PracticeEvent) :
    List.Chain' (cursorStepOk mode) (traceStates mode s es) := by
  induction es generalizing s with
  | nil => simp [traceStates]
  | cons e es ih =>
    rw [traceStates, List.chain'_cons']
    refine ⟨?_, ih (applyEvent mode s e)⟩
    intro b hb
    rw [traceStates_head] at hb
    have hb' : applyEvent mode s e = b := by simpa using hb
    subst hb'
    exact applyEvent_cursorStepOk mode s e

/-- In-range evaluation of `getNoteGroupIndexForPosition`. -/
theorem getNoteGroupIndexForPosition_of_lt (seq : List PlaybackStep) (r : Nat)
    (hr : r < seq.length) :
    getNoteGroupIndexForPosition seq (r : Int) =
      ((seq.get ⟨r, hr⟩).noteGroupIndex : Int) := by
  unfold getNoteGroupIndexForPosition
  rw [if_neg (by push_neg; omega)]
  simp [List.getElem?_eq_getElem hr]

/-- When `findFirstIndex` returns an index, the predicate holds there
and fails at every earlier index. -/
theorem findFirstIndex_some (p : PlaybackStep → Bool) :
    ∀ (l : List PlaybackStep) (k : Nat), findFirstIndex p l = some k →
      ∃ h : k < l.length, p (l.get ⟨k, h⟩) = true ∧
        ∀ r (hr : r < l.length), r < k → p (l.get ⟨r, hr⟩) = false
  | [], k, h => by simp [findFirstIndex] at h
  | step :: rest, k, h => by
    rw [findFirstIndex] at h
    by_cases hp : p step
    · rw [if_pos hp] at h
      injection h with h
      subst h
      exact ⟨Nat.succ_pos _, hp, fun r hr hrk => absurd hrk (Nat.not_lt_zero r)⟩
    · rw [if_neg hp] at h
      cases hrec : findFirstIndex p rest with
      | none => rw [hrec] at h; simp at h
      | some k1 =>
        rw [hrec, Option.map_some'] at h
        injection h with h
        subst h
        obtain ⟨hk1, hpk1, hmin⟩ := findFirstIndex_some p rest k1 hrec
        refine ⟨Nat.succ_lt_succ hk1, by simpa using hpk1, ?_⟩
        intro r hr hrk
        cases r with
        | zero => simpa using hp
        | succ r1 =>
          have hr1k : r1 < k1 := Nat.lt_of_succ_lt_succ hrk
          have hr1 : r1 < rest.length := Nat.lt_of_succ_lt_succ hr
          simpa using hmin r1 hr1 hr1k

/-- If the predicate holds somewhere, `findFirstIndex` returns an index
no later than there. -/
theorem findFirstIndex_exists (p : PlaybackStep → Bool) :
    ∀ (l : List PlaybackStep) (i : Nat) (hi : i < l.length),
      p (l.get ⟨i, hi⟩) = true → ∃ k, findFirstIndex p l = some k ∧ k ≤ i
  | [], i, hi, _ => absurd hi (Nat.not_lt_zero i)
  | step :: rest, i, hi, hpi => by
    rw [findFirstIndex]
    by_cases hp : p step
    · exact ⟨0, by rw [if_pos hp], Nat.zero_le i⟩
    · cases i with
      | zero => exact absurd (by simpa using hpi) hp
      | succ i1 =>
        have hi1 : i1 < rest.length := Nat.lt_of_succ_lt_succ hi
        have hpi1 : p (rest.get ⟨i1, hi1⟩) = true := by simpa using hpi
        obtain ⟨k, hk, hki⟩ := findFirstIndex_exists p rest i1 hi1 hpi1
        exact ⟨k + 1, by rw [if_neg hp, hk]; rfl, Nat.succ_le_succ hki⟩

/-- C6: for every valid playback position `p`, looking up the position
of the note-group index found at `p` yields a non-negative position no
later than `p`, referencing the same note-group index, and no earlier
position references that index (first occurrence). -/
theorem position_roundtrip_first_occurrence (seq : List PlaybackStep) (p : Nat)
    (hp : p < seq.length) :
    0 ≤ getPositionForNoteGroupIndex seq (getNoteGroupIndexForPosition seq p) ∧
    getPositionForNoteGroupIndex seq (getNoteGroupIndexForPosition seq p) ≤
      (p : Int) ∧
    getNoteGroupIndexForPosition seq
        (getPositionForNoteGroupIndex seq (getNoteGroupIndexForPosition seq p)) =
      getNoteGroupIndexForPosition seq p ∧
    ∀ r : Nat,
      (r : Int) <
          getPositionForNoteGroupIndex seq (getNoteGroupIndexForPosition seq p) →
        getNoteGroupIndexForPosition seq r ≠ getNoteGroupIndexForPosition seq p := by
  set t := getNoteGroupIndexForPosition seq (p : Int) with ht
  have hEval := getNoteGroupIndexForPosition_of_lt seq p hp
  have hpred : (((seq.get ⟨p, hp⟩).noteGroupIndex : Int) == t) = true := by
    rw [ht, hEval]
    simp
  obtain ⟨k, hk, hkp⟩ :=
    findFirstIndex_exists (fun step => (step.noteGroupIndex : Int) == t) seq p hp
      hpred
  have hq : getPositionForNoteGroupIndex seq t = (k : Int) := by
    unfold getPositionForNoteGroupIndex
    rw [hk]
  obtain ⟨hklen, hpk, hmin⟩ :=
    findFirstIndex_some (fun step => (step.noteGroupIndex : Int) == t) seq k hk
  refine ⟨?_, ?_, ?_, ?_⟩
  · rw [hq]
    exact Int.natCast_nonneg k
  · rw [hq]
    exact_mod_cast hkp
  · rw [hq, getNoteGroupIndexForPosition_of_lt seq k hklen]
    exact eq_of_beq hpk
  · intro r hrlt
    rw [hq] at hrlt
    have hrk : r < k := by exact_mod_cast hrlt
    have hrlen : r < seq.length := lt_trans hrk hklen
    rw [getNoteGroupIndexForPosition_of_lt seq r hrlen]
    intro heq
    have hfalse := hmin r hrlen hrk
    rw [heq] at hfalse
    simp at hfalse

/-- Witness for C6 at position 2 of a sequence revisiting note group 3:
the round trip lands on position 0, the first occurrence. -/
theorem position_roundtrip_first_occurrence_witness :
    0 ≤ getPositionForNoteGroupIndex exPositionSeq
        (getNoteGroupIndexForPosition exPositionSeq 2) ∧
    getPositionForNoteGroupIndex exPositionSeq
        (getNoteGroupIndexForPosition exPositionSeq 2) ≤ ((2 : Nat) : Int) ∧
    getNoteGroupIndexForPosition exPositionSeq
        (getPositionForNoteGroupIndex exPositionSeq
          (getNoteGroupIndexForPosition exPositionSeq 2)) =
      getNoteGroupIndexForPosition exPositionSeq 2 ∧
    ∀ r : Nat,
      (r : Int) <
          getPositionForNoteGroupIndex exPositionSeq
            (getNoteGroupIndexForPosition exPositionSeq 2) →
        getNoteGroupIndexForPosition exPositionSeq r ≠
          getNoteGroupIndexForPosition exPositionSeq 2 :=
  position_roundtrip_first_occurrence exPositionSeq 2 (by decide)
